import Mathlib

/-!
Verification of the HelloRAG llama-index pack ingestion pipeline
(`hellorag_llama_index_pack/base.py`) against its natural-language
specification.

The Python module is shallowly embedded below.  External collaborators
(zipfile, lxml/BeautifulSoup parsing, reportlab rendering, the llama-index
splitter/reader, the vector store, the filesystem) are modelled as inputs:
each archive member carries the parsed views of its bytes, the sentence
splitter is a function parameter, and on-disk effects on the transient PDF
file are recorded as an explicit event trace.  All repository logic —
member classification, image-metadata handling, HTML table text
extraction, the page-ordered PDF synthesis loop, temp-file deletion,
configuration checks and the retrieval-side node post-processor — is
translated directly from the source.
-/

/-- Association-list lookup with string keys; first match wins.  Models a
Python `dict` read (`m[k]` / `k in m`); dicts are modelled as ordered
association lists with distinct keys. -/
def alookup : List (String × String) → String → Option String
  | [], _ => none
  | kv :: rest, k => if kv.1 = k then some kv.2 else alookup rest k

/-- Python `dict` assignment `m[k] = v`: update the existing entry in place
(Python dicts keep the original insertion position) or append a new one. -/
def dictInsert : List (String × String) → String → String → List (String × String)
  | [], k, v => [(k, v)]
  | kv :: rest, k, v => if kv.1 = k then (k, v) :: rest else kv :: dictInsert rest k v

/-- Python `str.strip()` on a character list (whitespace simplified to the
ASCII class recognised by `Char.isWhitespace`). -/
def pyStripWs (cs : List Char) : List Char :=
  ((cs.dropWhile Char.isWhitespace).reverse.dropWhile Char.isWhitespace).reverse

/-- Parse a non-empty all-digit character list as a natural number, the way
Python `int` consumes the digit run. -/
def parseDigits (cs : List Char) : Option Nat :=
  if cs ≠ [] ∧ cs.all Char.isDigit then
    some (cs.foldl (fun a c => a * 10 + (c.toNat - 48)) 0)
  else none

/-- Model of Python `int(s)` on strings: strip surrounding whitespace, an
optional sign, then a non-empty digit run (underscore digit grouping is not
modelled; no page label in scope uses it).  `none` models `ValueError`. -/
def pyInt (s : String) : Option Int :=
  let cs := pyStripWs s.toList
  if cs.head? = some '-' then (parseDigits cs.tail).map (fun n => -(n : Int))
  else if cs.head? = some '+' then (parseDigits cs.tail).map (fun n => (n : Int))
  else (parseDigits cs).map (fun n => (n : Int))

/-- Decimal digits of `n`, most significant first; `fuel` bounds the
recursion so the definition is structural (and hence kernel-evaluable).
`fuel = n + 1` always suffices. -/
def natDecimalAux : Nat → Nat → List Char
  | 0, _ => []
  | fuel + 1, n =>
    if n < 10 then [Nat.digitChar n]
    else natDecimalAux fuel (n / 10) ++ [Nat.digitChar (n % 10)]

/-- Canonical decimal rendering of a natural number (Python `str` on a
non-negative `int`). -/
def pyStrNat (n : Nat) : String := String.mk (natDecimalAux (n + 1) n)

/-- Model of Python `str` on an `int`. -/
def pyStr (n : Int) : String :=
  if n < 0 then "-" ++ pyStrNat (-n).toNat else pyStrNat n.toNat

example : pyStr 0 = "0" := by decide
example : pyStr 12 = "12" := by decide
example : pyStr 120 = "120" := by decide
example : pyStr (-3) = "-3" := by decide
example : pyInt "01" = some 1 := by decide
example : pyInt " -42 " = some (-42) := by decide
example : pyInt "1a" = none := by decide

/-- After the optional sign: one or more digits, then an optional `.`
followed by one or more digits, consuming the whole input (`\d` is
modelled as an ASCII digit; the inputs in scope are the already
whitespace-stripped cell chunks). -/
def regexCoreBody (body : List Char) : Bool :=
  decide (body.takeWhile Char.isDigit ≠ []) &&
    (match body.dropWhile Char.isDigit with
     | [] => true
     | '.' :: fs => decide (fs ≠ []) && fs.all Char.isDigit
     | _ => false)

/-- Core of the regular expression `^-?\d+(\.\d+)?$` from the source's
table-cell filter: an optional leading `-`, then `regexCoreBody`. -/
def regexNumericCore (cs : List Char) : Bool :=
  regexCoreBody (match cs with | '-' :: t => t | _ => cs)

/-- Model of `re.match(r'^-?\d+(\.\d+)?$', c)` being truthy.  Python's `$`
(without `re.MULTILINE`) also matches just before a single newline at the
very end of the string, hence the second disjunct. -/
def reMatchNumeric (s : String) : Bool :=
  regexNumericCore s.toList ||
    (match s.toList.getLast? with
     | some c => decide (c = '\n') && regexNumericCore s.toList.dropLast
     | none => false)

/-- Spec-side predicate, written from the specification's words: the cell
text is "purely a signed integer or decimal number (optional leading `-`,
digits, optional `.` followed by digits, nothing else)". -/
def digitsB (cs : List Char) : Bool := decide (cs ≠ []) && cs.all Char.isDigit

/-- See `digitsB`: spec-side test for the part after the optional sign,
decomposed positionally (either all digits, or digits, then a dot at some
position, then digits). -/
def specBodyB (body : List Char) : Bool :=
  digitsB body ||
    (List.range body.length).any (fun i =>
      digitsB (body.take i) && decide (body.get? i = some '.') &&
        digitsB (body.drop (i + 1)))

/-- Spec-side "purely numeric" test on a whole cell text: optional leading
`-`, then `specBodyB`. -/
def specNumericB (s : String) : Bool :=
  let cs := s.toList
  specBodyB (if cs.head? = some '-' then cs.tail else cs)

example : reMatchNumeric "42" = true := by decide
example : reMatchNumeric "-3.5" = true := by decide
example : reMatchNumeric "Room 42" = false := by decide
example : reMatchNumeric "1.2kg" = false := by decide
example : reMatchNumeric "42\n" = true := by decide
example : specNumericB "42\n" = false := by decide
example : specNumericB "-3.5" = true := by decide

/-- One `td` cell's contribution to the extracted table text:
`''.join(c for c in td.stripped_strings if not re.match(r'^-?\d+(\.\d+)?$', c))`.
A cell is modelled as the list of its whitespace-stripped text chunks. -/
def tdText (td : List String) : String :=
  String.join (td.filter (fun c => !(reMatchNumeric c)))

/-- The `texts` list comprehension: row-major traversal
`for tr in soup.find_all('tr') for td in tr.find_all('td')`. -/
def tableTexts (tbl : List (List (List String))) : List String :=
  tbl.flatMap (fun tr => tr.map tdText)

/-- Replace every left-to-right non-overlapping occurrence of two adjacent
spaces by one space: the semantics of Python `str.replace("  ", " ")`. -/
def collapseSpacesAux : List Char → List Char
  | ' ' :: ' ' :: rest => ' ' :: collapseSpacesAux rest
  | c :: rest => c :: collapseSpacesAux rest
  | [] => []

/-- String version of `collapseSpacesAux`. -/
def collapseDoubleSpaces (s : String) : String :=
  String.mk (collapseSpacesAux s.toList)

/-- `html_core_content = ''.join(texts).replace("  ", " ")`. -/
def htmlCoreContent (tbl : List (List (List String))) : String :=
  collapseDoubleSpaces (String.join (tableTexts tbl))

example : htmlCoreContent [[["a"], ["b"]]] = "ab" := by decide
example : htmlCoreContent [[["Weight", "42"]], [["x"]]] = "Weightx" := by decide
example : collapseDoubleSpaces "a   b" = "a  b" := by decide

/-- Node class used in the source (`TextNode` with `chunk_type` metadata
`'table'`, `ImageNode` with `'image'`, splitter output chunks). -/
inductive ChunkKind
  | image
  | table
  | textChunk
  deriving DecidableEq

/-- A produced content node: text payload plus string metadata.  The random
`uuid4` node id and the image payload (base64 bytes or uploaded URL) are
external effects and are not part of the model. -/
structure Node where
  kind : ChunkKind
  text : String
  metadata : List (String × String)
  deriving DecidableEq

/-- A retrieved node with its similarity score, as handed to the
post-processor. -/
structure NodeWithScore where
  node : Node
  score : Int
  deriving DecidableEq

/-- `TableHtmlReplacementPostProcessor._postprocess_nodes`: for each node,
if `'table_html' in n.node.metadata` then `n.node.set_content("")`;
the list itself is returned unchanged. -/
def postprocessNodes (ns : List NodeWithScore) : List NodeWithScore :=
  ns.map (fun n =>
    if (alookup n.node.metadata "table_html").isSome then
      { n with node := { n.node with text := "" } }
    else n)

/-- One entry of the `image.json` array, modelled as a JSON object with
string values (the schema in scope is
`{title: string, description: string, page: string, path: string}`). -/
abbrev ImageInfo : Type := List (String × String)

/-- Processing of a single `image.json` entry (source lines 209–230).
`Except.error` models an uncaught `KeyError`; `Except.ok none` models the
`continue` that drops the entry.  Note the source tests the key
`'scriptionle'` (sic) before reading `image_info['description']`; the
binary payload read and its base64/upload handling are external I/O and do
not affect the produced text/metadata. -/
def imageNodeOf (fileId : String) (info : ImageInfo) : Except String (Option Node) :=
  let title :=
    match alookup info "title" with
    | some v => if v ≠ "" then v else ""
    | none => ""
  match (if (alookup info "scriptionle").isSome then
           match alookup info "description" with
           | some v => Except.ok (if v ≠ "" then v else "")
           | none => Except.error "KeyError"
         else Except.ok "") with
  | Except.error e => Except.error e
  | Except.ok description =>
    if (String.mk (pyStripWs title.toList)).length
        + (String.mk (pyStripWs description.toList)).length = 0 then
      Except.ok none
    else
      match alookup info "path" with
      | none => Except.error "KeyError"
      | some _ =>
        match alookup info "page" with
        | none => Except.error "KeyError"
        | some page =>
          Except.ok (some
            { kind := ChunkKind.image,
              text := title ++ "\n" ++ description,
              metadata := [("page_label", page), ("file_name", fileId),
                           ("chunk_type", "image")] })

example :
    imageNodeOf "d" [("title", "Chart"), ("description", ""), ("page", "1"), ("path", "./a.png")]
      = Except.ok (some
          { kind := ChunkKind.image, text := "Chart\n",
            metadata := [("page_label", "1"), ("file_name", "d"), ("chunk_type", "image")] }) := by
  rfl

example :
    imageNodeOf "d" [("title", ""), ("description", "A chart"), ("page", "1"), ("path", "./a.png")]
      = Except.ok none := by rfl

/-- One table element as seen through the external parsers: its rows of
cells (each cell the list of its `stripped_strings`) and its serialized
markup (`etree.tostring(first_table, method='html', encoding='unicode')`). -/
structure HtmlTable where
  rows : List (List (List String))
  markup : String
  deriving DecidableEq

/-- An HTML member as seen through `lxml`: the results of the three xpath
queries `//h1/text()`, `//p/text()` and `//table` run by the source. -/
structure HtmlDoc where
  h1Texts : List String
  pTexts : List String
  tables : List HtmlTable
  deriving DecidableEq

/-- The parsed views of one member's bytes.  The source chooses which
external parser to run from the member NAME; the model therefore carries
every view: `text` is the UTF-8 decode, `html` the lxml parse of that text,
and `imageJson` the `json.loads` result (`none` models a JSON decode
error). -/
structure MemberContent where
  text : String
  html : HtmlDoc
  imageJson : Option (List ImageInfo)
  deriving DecidableEq

/-- One zip member (`zipfile.ZipInfo` + its content views). -/
structure ZMember where
  isDir : Bool
  filename : String
  content : MemberContent
  deriving DecidableEq

/-- Mutable state threaded through the member loop: `all_text_nodes_map`
and the slice of `all_nodes` contributed so far. -/
structure WalkState where
  textMap : List (String × String)
  nodes : List Node
  deriving DecidableEq

/-- `os.path.splitext(member_name)[1]`: the extension (with its dot) of the
final path component, where a run of leading dots is not an extension. -/
def extOf (name : String) : String :=
  let base := (name.toList.reverse.takeWhile (fun c => c ≠ '/')).reverse
  let stripped := base.dropWhile (fun c => c = '.')
  if stripped.contains '.' then
    String.mk ('.' :: (stripped.reverse.takeWhile (fun c => c ≠ '.')).reverse)
  else ""

example : extOf "1/page.txt" = ".txt" := by decide
example : extOf "2/page.html" = ".html" := by decide
example : extOf "image.json" = ".json" := by decide
example : extOf "a/.txt" = "" := by decide

/-- Is `pat` a contiguous substring of `s`?  Models Python `str.find(...) != -1`. -/
def isSubstrOf (pat s : List Char) : Bool :=
  match s with
  | [] => pat.isEmpty
  | _ :: rest => pat.isPrefixOf s || isSubstrOf pat rest

/-- `[0]` subscript on an xpath result list: `IndexError` when empty. -/
def headOr : List α → String → Except String α
  | [], e => Except.error e
  | a :: _, _ => Except.ok a

/-- Extension routing at the bottom of the member loop (source lines
231–256): `page_label = member_name.split('/')[0]`, then `.txt` members
update the page-text map (last write wins) and `.html` members run the
unguarded title/description/table extraction and emit a table node. -/
def routeMember (fileId : String) (st : WalkState) (m : ZMember) : Except String WalkState :=
  let pageLabel := String.mk (m.filename.toList.takeWhile (fun c => c ≠ '/'))
  let ext := extOf m.filename
  if ext = ".txt" then
    Except.ok { st with textMap := dictInsert st.textMap pageLabel m.content.text }
  else if ext = ".html" then
    match headOr m.content.html.h1Texts "IndexError" with
    | Except.error e => Except.error e
    | Except.ok title =>
      match headOr m.content.html.pTexts "IndexError" with
      | Except.error e => Except.error e
      | Except.ok description =>
        match headOr m.content.html.tables "IndexError" with
        | Except.error e => Except.error e
        | Except.ok firstTable =>
          Except.ok { st with nodes := st.nodes ++
            [{ kind := ChunkKind.table,
               text := title ++ "\n" ++ description ++ "\n" ++ htmlCoreContent firstTable.rows,
               metadata := [("page_label", pageLabel), ("file_name", fileId),
                            ("table_html", firstTable.markup), ("chunk_type", "table")] }] }
  else Except.ok st

/-- The `for image_info in image_infos` loop: build an image node per
retained entry, propagating any `KeyError`. -/
def foldImageInfos (fileId : String) : List ImageInfo → WalkState → Except String WalkState
  | [], st => Except.ok st
  | info :: rest, st =>
    match imageNodeOf fileId info with
    | Except.error e => Except.error e
    | Except.ok none => foldImageInfos fileId rest st
    | Except.ok (some node) =>
      foldImageInfos fileId rest { st with nodes := st.nodes ++ [node] }

/-- The body of `for member in zip_content` (source lines 196–256):
directory entries and `__MACOSX` artifacts are skipped; a top-level member
is ignored unless it is `image.json` (whose processing falls through to the
harmless extension routing, as in the source); members with a path
separator are routed by extension. -/
def processMember (noImg : Bool) (fileId : String) (st : WalkState) (m : ZMember) :
    Except String WalkState :=
  if m.isDir then Except.ok st
  else if isSubstrOf "__MACOSX".toList m.filename.toList then Except.ok st
  else if m.filename.toList.contains '/' then routeMember fileId st m
  else if m.filename ≠ "image.json" then Except.ok st
  else if noImg then Except.ok st
  else
    match m.content.imageJson with
    | none => Except.error "JSONDecodeError"
    | some infos =>
      match (if infos.isEmpty then Except.ok st else foldImageInfos fileId infos st) with
      | Except.error e => Except.error e
      | Except.ok st2 => routeMember fileId st2 m

/-- The member loop itself: sequential, with any uncaught exception
aborting the remaining members (there is no try/except in the loop). -/
def processMembers (noImg : Bool) (fileId : String) :
    List ZMember → WalkState → Except String WalkState
  | [], st => Except.ok st
  | m :: rest, st =>
    match processMember noImg fileId st m with
    | Except.error e => Except.error e
    | Except.ok st2 => processMembers noImg fileId rest st2

/-- `[int(k) for k in all_text_nodes_map.keys()]`; a key `int` cannot parse
raises `ValueError`. -/
def intsOfKeys : List (String × String) → Except String (List Int)
  | [] => Except.ok []
  | kv :: rest =>
    match pyInt kv.1 with
    | none => Except.error "ValueError"
    | some n =>
      match intsOfKeys rest with
      | Except.error e => Except.error e
      | Except.ok ns => Except.ok (n :: ns)

/-- Insert into an ascending list (helper for the model of Python
`sorted`). -/
def insertAsc (x : Int) : List Int → List Int
  | [] => [x]
  | y :: ys => if x < y then x :: y :: ys else y :: insertAsc x ys

/-- Model of Python `sorted` on a list of ints: ascending order, same
multiset. -/
def sortInts : List Int → List Int
  | [] => []
  | x :: xs => insertAsc x (sortInts xs)

/-- The page-rendering loop (source lines 266–276).  For each sorted page
number: `while current_page < page_number` emits blank filler pages, then
the page's text is fetched via `all_text_nodes_map[str(page_number)]`
(`KeyError` if absent) and drawn, emitting one page.  A page is `none`
(blank) or `some text`. -/
def renderLoop (tm : List (String × String)) :
    List Int → Int → Except String (List (Option String))
  | [], _ => Except.ok []
  | p :: rest, current =>
    let blanks : List (Option String) := List.replicate (p - current).toNat none
    match alookup tm (pyStr p) with
    | none => Except.error "KeyError"
    | some t =>
      match renderLoop tm rest (max current p + 1) with
      | Except.error e => Except.error e
      | Except.ok tail => Except.ok (blanks ++ some t :: tail)

/-- The synthetic paginated document produced for one archive's page-text
map: sort the integer page numbers, then run the rendering loop starting
from physical page 1. -/
def renderPdfPages (tm : List (String × String)) : Except String (List (Option String)) :=
  match intsOfKeys tm with
  | Except.error e => Except.error e
  | Except.ok ints => renderLoop tm (sortInts ints) 1

example : renderPdfPages [("2", "Hello world")] = Except.ok [none, some "Hello world"] := by rfl
example : renderPdfPages [("01", "x")] = Except.error "KeyError" := by rfl
example : renderPdfPages [("01", "a"), ("1", "b")] = Except.ok [some "b", some "b"] := by rfl

/-- Filesystem effects on the transient PDF file. -/
inductive FsEvent
  | create (path : String)
  | delete (path : String)
  deriving DecidableEq

/-- The per-archive PDF phase (source lines 259–287), with its filesystem
trace.  `reportlab` writes the file only at `c.save()`, so a failure inside
the rendering loop creates no file; after `save()` the external
reader/splitter runs (modelled by the `split` parameter) and `delete_file`
is called only after it returns — there is no try/finally.  When the text
map is empty the whole phase is skipped. -/
def pdfPhase (split : List (Option String) → Except String (List Node)) (tmp : String)
    (tm : List (String × String)) : List FsEvent × Except String (List Node) :=
  if tm.length > 0 then
    match renderPdfPages tm with
    | Except.error e => ([], Except.error e)
    | Except.ok pages =>
      match split pages with
      | Except.ok ns => ([FsEvent.create tmp, FsEvent.delete tmp], Except.ok ns)
      | Except.error e => ([FsEvent.create tmp], Except.error e)
  else ([], Except.ok [])

/-- One file met during the `os.walk`: its name and, if it is opened as a
zip, either its member list or the `BadZipFile`-style error raised when the
archive is corrupt. -/
structure WalkFile where
  filename : String
  zipData : Except String (List ZMember)

/-- `content_file_name = filename[:-4]`. -/
def stripZipExt (name : String) : String :=
  String.mk (name.toList.take (name.toList.length - 4))

/-- Everything `build_index` does for one `.zip` file: open it, run the
member loop from a fresh per-archive state, then run the PDF phase on the
accumulated page-text map; the archive's contribution is its member-loop
nodes followed by the splitter's chunk nodes. -/
def processZipFile (noImg : Bool) (split : List (Option String) → Except String (List Node))
    (f : WalkFile) : Except String (List Node) :=
  match f.zipData with
  | Except.error e => Except.error e
  | Except.ok members =>
    match processMembers noImg (stripZipExt f.filename) members ⟨[], []⟩ with
    | Except.error e => Except.error e
    | Except.ok st =>
      match (pdfPhase split "" st.textMap).2 with
      | Except.error e => Except.error e
      | Except.ok chunkNodes => Except.ok (st.nodes ++ chunkNodes)

/-- The root-path walk of `build_index` (source lines 186–288): process
every file ending in `.zip` in enumeration order, accumulating all nodes;
there is no try/except, so the first failing archive aborts the walk. -/
def buildNodes (noImg : Bool) (split : List (Option String) → Except String (List Node)) :
    List WalkFile → Except String (List Node)
  | [] => Except.ok []
  | f :: rest =>
    if (".zip".toList).isSuffixOf f.filename.toList then
      match processZipFile noImg split f with
      | Except.error e => Except.error e
      | Except.ok ns =>
        match buildNodes noImg split rest with
        | Except.error e => Except.error e
        | Except.ok more => Except.ok (ns ++ more)
    else buildNodes noImg split rest

/-- The storage context handed to the pack; only the presence of its
`vector_stores` sub-resource matters to the checks. -/
structure StorageCtx where
  vector_stores : Option Unit
  deriving DecidableEq

/-- The constructor arguments relevant to the configuration checks. -/
structure InitArgs where
  base_path : Option String
  need_refresh : Bool
  index_path : Option String
  storage_context : Option StorageCtx
  deriving DecidableEq

/-- The three `raise ValueError` guards at the top of `__init__`
(source lines 120–125), in source order. -/
def initCheck (a : InitArgs) : Except String Unit :=
  if a.need_refresh && a.base_path.isNone then
    Except.error "base_path can not be None"
  else if a.index_path.isNone && a.storage_context.isNone then
    Except.error "index_path and storage_context can not be both None"
  else if a.index_path.isNone &&
      (match a.storage_context with
       | some sc => sc.vector_stores.isNone
       | none => false) then
    Except.error "vector_stores can not be None"
  else Except.ok ()

/-- Marker for `self.build_index(...)` having been entered. -/
inductive InitEvent
  | buildStarted
  deriving DecidableEq

/-- Control flow of `__init__` up to the index build: the guards run first
and raise synchronously; only afterwards, and only when `need_refresh` is
set, is `build_index` invoked. -/
def initRun (a : InitArgs) : List InitEvent × Except String Unit :=
  match initCheck a with
  | Except.error e => ([], Except.error e)
  | Except.ok _ =>
    ((if a.need_refresh then [InitEvent.buildStarted] else []), Except.ok ())

theorem alookup_isSome_of_mem : ∀ {l : List (String × String)} {kv : String × String},
    kv ∈ l → (alookup l kv.1).isSome = true := by
  intro l
  induction l with
  | nil => intro kv h; simp at h
  | cons a rest ih =>
    intro kv h
    rcases List.mem_cons.mp h with h | h
    · subst h; simp [alookup]
    · by_cases ha : a.1 = kv.1
      · simp [alookup, ha]
      · simpa [alookup, ha] using ih h

theorem alookup_some_mem : ∀ {l : List (String × String)} {k v : String},
    alookup l k = some v → (k, v) ∈ l := by
  intro l
  induction l with
  | nil => intro k v h; simp [alookup] at h
  | cons a rest ih =>
    intro k v h
    by_cases ha : a.1 = k
    · simp only [alookup, if_pos ha] at h
      cases h
      exact List.mem_cons.mpr (Or.inl (by cases a; simp_all))
    · simp only [alookup, if_neg ha] at h
      exact List.mem_cons.mpr (Or.inr (ih h))

/-- Claim C9: for every list of retrieved nodes, the post-retrieval
transform blanks the text payload of exactly those nodes that carry the
`table_html` metadata key, preserves the blanked nodes' metadata and score,
leaves nodes without that key untouched, and preserves the list's length
and order. -/
theorem c9_theorem (ns : List NodeWithScore) :
    (postprocessNodes ns).length = ns.length ∧
    ∀ d : NodeWithScore, ∀ i : Nat, i < ns.length →
      ((postprocessNodes ns).getD i d).node.metadata = ((ns.getD i d)).node.metadata ∧
      ((postprocessNodes ns).getD i d).score = (ns.getD i d).score ∧
      (if (alookup (ns.getD i d).node.metadata "table_html").isSome then
        ((postprocessNodes ns).getD i d).node.text = ""
      else (postprocessNodes ns).getD i d = ns.getD i d) := by
  refine ⟨by simp [postprocessNodes], ?_⟩
  intro d i hi
  induction ns generalizing i with
  | nil => simp at hi
  | cons n rest ih =>
    cases i with
    | zero =>
      simp only [postprocessNodes, List.map_cons, List.getD_cons_zero]
      by_cases h : (alookup n.node.metadata "table_html").isSome
      · simp [h]
      · simp [h]
    | succ j =>
      have hj : j < rest.length := by simpa using hi
      simpa only [postprocessNodes, List.map_cons, List.getD_cons_succ] using ih j hj

/-- Witness for C9 at a concrete one-element list whose node carries the
`table_html` key. -/
theorem c9_witness :
    ((postprocessNodes [⟨⟨ChunkKind.table, "x", [("table_html", "<t>")]⟩, 0⟩]).getD 0
        ⟨⟨ChunkKind.table, "", []⟩, 0⟩).node.metadata
      = (([⟨⟨ChunkKind.table, "x", [("table_html", "<t>")]⟩, 0⟩] : List NodeWithScore).getD 0
        ⟨⟨ChunkKind.table, "", []⟩, 0⟩).node.metadata ∧
    ((postprocessNodes [⟨⟨ChunkKind.table, "x", [("table_html", "<t>")]⟩, 0⟩]).getD 0
        ⟨⟨ChunkKind.table, "", []⟩, 0⟩).score
      = (([⟨⟨ChunkKind.table, "x", [("table_html", "<t>")]⟩, 0⟩] : List NodeWithScore).getD 0
        ⟨⟨ChunkKind.table, "", []⟩, 0⟩).score ∧
    (if (alookup (([⟨⟨ChunkKind.table, "x", [("table_html", "<t>")]⟩, 0⟩] : List NodeWithScore).getD 0
        ⟨⟨ChunkKind.table, "", []⟩, 0⟩).node.metadata "table_html").isSome then
      ((postprocessNodes [⟨⟨ChunkKind.table, "x", [("table_html", "<t>")]⟩, 0⟩]).getD 0
        ⟨⟨ChunkKind.table, "", []⟩, 0⟩).node.text = ""
    else (postprocessNodes [⟨⟨ChunkKind.table, "x", [("table_html", "<t>")]⟩, 0⟩]).getD 0
        ⟨⟨ChunkKind.table, "", []⟩, 0⟩
      = ([⟨⟨ChunkKind.table, "x", [("table_html", "<t>")]⟩, 0⟩] : List NodeWithScore).getD 0
        ⟨⟨ChunkKind.table, "", []⟩, 0⟩) :=
  (c9_theorem [⟨⟨ChunkKind.table, "x", [("table_html", "<t>")]⟩, 0⟩]).2
    ⟨⟨ChunkKind.table, "", []⟩, 0⟩ 0 (by decide)

/-- Claim C3 (code bug): evaluation of the image-entry processing at a
schema-conforming entry with an empty title and a non-empty description.
Because the source tests the garbled key `'scriptionle'` before reading
`image_info['description']`, the description is never picked up, the
emptiness guard fires, and no image node is produced — while an entry with
a non-empty title is retained.  The claim (and the evident intent of the
guard, which reads `image_info['description']`) requires the
description-only entry to be retained with the description in its text
payload. -/
theorem c3_theorem :
    imageNodeOf "doc1"
        [("title", ""), ("description", "A chart"), ("page", "1"), ("path", "./c.png")]
      = Except.ok none ∧
    imageNodeOf "doc1"
        [("title", "Chart"), ("description", ""), ("page", "1"), ("path", "./c.png")]
      = Except.ok (some
          { kind := ChunkKind.image, text := "Chart\n",
            metadata := [("page_label", "1"), ("file_name", "doc1"),
                         ("chunk_type", "image")] }) :=
  ⟨rfl, rfl⟩

/-- Claim C8 counterexample: configuring BOTH terminal persistence modes at
once (an index path and a storage context with vector stores) raises no
error, contradicting "exactly one ... must be configured"; the second
conjunct shows the neither-configured case does raise. -/
theorem c8_counterexample :
    initCheck { base_path := none, need_refresh := false, index_path := some "idx",
                storage_context := some { vector_stores := some () } } = Except.ok () ∧
    initCheck { base_path := none, need_refresh := false, index_path := none,
                storage_context := none }
      = Except.error "index_path and storage_context can not be both None" :=
  ⟨rfl, rfl⟩

/-- Claim C8 (amended): at least one persistence mode must be configured.
Outside the unrelated `base_path` guard: with neither an index path nor a
storage context the constructor raises synchronously with no build
started; with no index path and a storage context lacking its
`vector_stores` sub-resource it likewise raises before any processing;
and with an index path present the checks pass regardless of the storage
context, so configuring both modes is accepted. -/
theorem c8_theorem (a : InitArgs) (hbp : ¬(a.need_refresh = true ∧ a.base_path = none)) :
    ((a.index_path = none ∧ a.storage_context = none) →
      initRun a = ([], Except.error "index_path and storage_context can not be both None")) ∧
    (∀ sc : StorageCtx, a.index_path = none → a.storage_context = some sc →
      sc.vector_stores = none →
      initRun a = ([], Except.error "vector_stores can not be None")) ∧
    (a.index_path.isSome = true → initCheck a = Except.ok ()) := by
  have hguard : (a.need_refresh && a.base_path.isNone) = false := by
    rcases hnr : a.need_refresh with _ | _
    · simp
    · rcases hb : a.base_path with _ | v
      · exact absurd ⟨hnr, hb⟩ hbp
      · simp
  refine ⟨?_, ?_, ?_⟩
  · rintro ⟨hip, hsc⟩
    simp [initRun, initCheck, hguard, hip, hsc]
  · intro sc hip hsc hvs
    simp [initRun, initCheck, hguard, hip, hsc, hvs]
  · intro hip
    have : a.index_path.isNone = false := by
      rcases h : a.index_path with _ | v
      · rw [h] at hip; simp at hip
      · simp
    simp [initCheck, hguard, this]

/-- Witness for C8 at the neither-configured arguments. -/
theorem c8_witness :
    initRun { base_path := none, need_refresh := false, index_path := none,
              storage_context := none }
      = ([], Except.error "index_path and storage_context can not be both None") :=
  (c8_theorem { base_path := none, need_refresh := false, index_path := none,
                storage_context := none } (by simp)).1 ⟨rfl, rfl⟩

/-- Claim C7 counterexample: when the external reader/splitter raises after
the synthetic PDF has been written, the file is created but never deleted
(there is no try/finally around `load_data`/`get_nodes_from_documents`),
and the error escapes — the transient file is NOT deleted on every exit
path. -/
theorem c7_counterexample :
    (pdfPhase (fun _ => Except.error "ReaderError") "t.pdf" [("1", "hi")]).1
        = [FsEvent.create "t.pdf"] ∧
    FsEvent.delete "t.pdf" ∉ (pdfPhase (fun _ => Except.error "ReaderError") "t.pdf"
        [("1", "hi")]).1 ∧
    (pdfPhase (fun _ => Except.error "ReaderError") "t.pdf" [("1", "hi")]).2
        = Except.error "ReaderError" := by
  refine ⟨rfl, ?_, rfl⟩
  decide

/-- Claim C7 (amended): the transient PDF is deleted exactly on the success
path — a delete of the temp file appears in the trace iff the file was
created and the external reader/splitter step returned successfully; on a
reader/splitter failure after creation the file leaks. -/
theorem c7_theorem (split : List (Option String) → Except String (List Node))
    (tmp : String) (tm : List (String × String)) :
    FsEvent.delete tmp ∈ (pdfPhase split tmp tm).1 ↔
      (FsEvent.create tmp ∈ (pdfPhase split tmp tm).1 ∧
        (pdfPhase split tmp tm).2.isOk = true) := by
  unfold pdfPhase
  by_cases h : tm.length > 0
  · simp only [if_pos h]
    cases hr : renderPdfPages tm with
    | error e => simp [hr, Except.isOk, Except.toBool]
    | ok pages =>
      cases hs : split pages with
      | ok ns => simp [hr, hs, Except.isOk, Except.toBool]
      | error e => simp [hr, hs, Except.isOk, Except.toBool]
  · simp [if_neg h, Except.isOk, Except.toBool]

theorem map_tdText_flatMap_id (tbl : List (List (List String))) :
    (tbl.flatMap id).map tdText = tableTexts tbl := by
  induction tbl with
  | nil => rfl
  | cons tr rest ih => simp [tableTexts, List.flatMap_cons, List.map_append] at *; exact ih

/-- Claim C4 counterexample: for a one-row table with two cells `"a"` and
`"b"`, the code produces `"ab"` (the `texts` list is joined with the empty
separator), while the claim's single-separating-space join predicts
`"a b"`. -/
theorem c4_counterexample :
    htmlCoreContent [[["a"], ["b"]]] = "ab" ∧
    collapseDoubleSpaces (String.join (List.intersperse " " (tableTexts [[["a"], ["b"]]])))
      = "a b" ∧
    ("ab" : String) ≠ "a b" :=
  ⟨rfl, rfl, by decide⟩

/-- Claim C4 (amended): the extracted core text is the concatenation of the
retained (non-numeric) cell texts in row-major order with NO separator
between adjacent cell texts, after which each left-to-right non-overlapping
run of two spaces is collapsed into one. -/
theorem c4_theorem (tbl : List (List (List String))) :
    htmlCoreContent tbl = collapseDoubleSpaces (String.join ((tbl.flatMap id).map tdText)) := by
  rw [map_tdText_flatMap_id]
  rfl

/-- Claim C2 counterexample: an archive whose first member is an HTML page
with no `h1` element followed by a valid `.txt` member.  The unguarded
`[0]` subscript raises, the whole member loop aborts with the error, and
the `.txt` member is never accumulated — whereas processing the `.txt`
member alone succeeds. -/
theorem c2_counterexample :
    processMembers false "doc1"
        [⟨false, "1/a.html", ⟨"", ⟨[], ["D"], [⟨[[["x"]]], "<table></table>"⟩]⟩, none⟩⟩,
         ⟨false, "2/b.txt", ⟨"hello", ⟨[], [], []⟩, none⟩⟩] ⟨[], []⟩
      = Except.error "IndexError" ∧
    processMembers false "doc1"
        [⟨false, "2/b.txt", ⟨"hello", ⟨[], [], []⟩, none⟩⟩] ⟨[], []⟩
      = Except.ok ⟨[("2", "hello")], []⟩ :=
  ⟨rfl, rfl⟩

/-- Claim C2 (amended): an HTML member whose document lacks a title, a
description paragraph, or a table raises an unchecked `IndexError` that
aborts the entire member loop: whatever members follow it are never
processed and the archive yields no state at all (the exception propagates
out of the archive, so the archive's other fragments are lost). -/
theorem c2_theorem (noImg : Bool) (fileId name : String) (c : MemberContent)
    (rest : List ZMember) (st : WalkState)
    (hmac : isSubstrOf "__MACOSX".toList name.toList = false)
    (hslash : name.toList.contains '/' = true)
    (hext : extOf name = ".html")
    (hbad : c.html.h1Texts = [] ∨ c.html.pTexts = [] ∨ c.html.tables = []) :
    processMembers noImg fileId (⟨false, name, c⟩ :: rest) st = Except.error "IndexError" := by
  obtain ⟨ctext, ⟨h1s, ps, tbls⟩, ij⟩ := c
  simp only [String.toList] at hmac hslash
  simp at hmac hslash
  have htxt : extOf name ≠ ".txt" := by rw [hext]; decide
  have hstep : processMember noImg fileId st ⟨false, name, ⟨ctext, ⟨h1s, ps, tbls⟩, ij⟩⟩
      = Except.error "IndexError" := by
    rcases h1s with _ | ⟨t, ts⟩
    · simp [processMember, routeMember, hmac, hslash, hext, htxt, headOr]
    · rcases ps with _ | ⟨p, pps⟩
      · simp [processMember, routeMember, hmac, hslash, hext, htxt, headOr]
      · rcases tbls with _ | ⟨tb, tbs⟩
        · simp [processMember, routeMember, hmac, hslash, hext, htxt, headOr]
        · exfalso
          simp at hbad
  unfold processMembers
  rw [hstep]

/-- Witness for C2 at a concrete archive member. -/
theorem c2_witness :
    processMembers false "doc1"
        [⟨false, "1/bad.html", ⟨"", ⟨[], [], []⟩, none⟩⟩] ⟨[], []⟩
      = Except.error "IndexError" :=
  c2_theorem false "doc1" "1/bad.html" ⟨"", ⟨[], [], []⟩, none⟩ [] ⟨[], []⟩ (by decide)
    (by decide) (by decide) (Or.inl rfl)

/-- Claim C1 counterexample: a corrupt archive (`BadZipFile` on open)
followed by a valid archive containing one well-formed HTML page.  The
build aborts with the corrupt archive's error even though the valid
archive alone yields a node — the failure is not isolated and the
exception escapes. -/
theorem c1_counterexample :
    buildNodes false (fun _ => Except.ok [])
        [⟨"bad.zip", Except.error "BadZipFile"⟩,
         ⟨"good.zip", Except.ok
           [⟨false, "1/t.html", ⟨"", ⟨["T"], ["D"], [⟨[[["x"]]], "<table></table>"⟩]⟩, none⟩⟩]⟩]
      = Except.error "BadZipFile" ∧
    buildNodes false (fun _ => Except.ok [])
        [⟨"good.zip", Except.ok
           [⟨false, "1/t.html", ⟨"", ⟨["T"], ["D"], [⟨[[["x"]]], "<table></table>"⟩]⟩, none⟩⟩]⟩]
      = Except.ok
          [{ kind := ChunkKind.table, text := "T\nD\nx",
             metadata := [("page_label", "1"), ("file_name", "good"),
                          ("table_html", "<table></table>"), ("chunk_type", "table")] }] :=
  ⟨rfl, rfl⟩

/-- Claim C1 (amended): the root-path build completes successfully iff
every `.zip` file under the root processes cleanly; the first unreadable or
corrupt archive's exception propagates out of the walk (aborting it), so a
root containing a corrupt archive and a valid archive does not complete
with the valid archive's nodes. -/
theorem c1_theorem (noImg : Bool) (split : List (Option String) → Except String (List Node))
    (files : List WalkFile) :
    (buildNodes noImg split files).isOk = true ↔
      ∀ f ∈ files, (".zip".toList).isSuffixOf f.filename.toList = true →
        (processZipFile noImg split f).isOk = true := by
  induction files with
  | nil => simp [buildNodes, Except.isOk, Except.toBool]
  | cons f rest ih =>
    unfold buildNodes
    by_cases hz : (".zip".toList).isSuffixOf f.filename.toList = true
    · simp only [if_pos hz]
      cases hp : processZipFile noImg split f with
      | error e =>
        simp only [Except.isOk, Except.toBool]
        constructor
        · intro h; cases h
        · intro h
          have := h f (List.mem_cons_self f rest) hz
          rw [hp] at this
          cases this
      | ok ns =>
        cases hb : buildNodes noImg split rest with
        | error e =>
          simp only [Except.isOk, Except.toBool]
          rw [hb] at ih
          constructor
          · intro h; cases h
          · intro h
            have : False := by
              have hrest : ∀ g ∈ rest, (".zip".toList).isSuffixOf g.filename.toList = true →
                  (processZipFile noImg split g).isOk = true :=
                fun g hg hgz => h g (List.mem_cons_of_mem f hg) hgz
              have := ih.mpr hrest
              cases this
            cases this
        | ok more =>
          rw [hb] at ih
          simp only [Except.isOk, Except.toBool]
          constructor
          · intro _ g hg hgz
            rcases List.mem_cons.mp hg with h | h
            · subst h; simp [hp, Except.isOk, Except.toBool]
            · exact ih.mp rfl g h hgz
          · intro _; trivial
    · simp only [if_neg hz]
      rw [ih]
      constructor
      · intro h g hg hgz
        rcases List.mem_cons.mp hg with h2 | h2
        · subst h2; exact absurd hgz hz
        · exact h g h2 hgz
      · intro h g hg hgz
        exact h g (List.mem_cons_of_mem f hg) hgz

theorem dropWhile_head_not {α : Type} (p : α → Bool) (l : List α) (c : α) (t : List α)
    (h : l.dropWhile p = c :: t) : p c = false := by
  induction l with
  | nil => simp [List.dropWhile] at h
  | cons a rest ih =>
    rw [List.dropWhile_cons] at h
    by_cases hp : p a = true
    · rw [if_pos hp] at h; exact ih h
    · rw [if_neg hp] at h
      cases h
      simpa using hp

theorem specBodyB_of_digits (ds : List Char) (hds : ∀ c ∈ ds, c.isDigit = true) :
    specBodyB ds = decide (ds ≠ []) := by
  unfold specBodyB
  have hall : ds.all Char.isDigit = true := List.all_eq_true.mpr hds
  have hany : (List.range ds.length).any (fun i =>
      digitsB (ds.take i) && decide (ds.get? i = some '.') &&
        digitsB (ds.drop (i + 1))) = false := by
    rw [List.any_eq_false]
    intro i _
    simp only [Bool.and_eq_true, decide_eq_true_eq, not_and]
    intro hcond
    exfalso
    have hdot : ('.' : Char) ∈ ds := by
      have := hcond.2
      rw [List.get?_eq_getElem?] at this
      exact List.getElem?_mem this
    have := hds '.' hdot
    simp at this
  rw [hany, Bool.or_false]
  unfold digitsB
  rw [hall, Bool.and_true]

theorem specBodyB_of_dot_split (ds fs : List Char) (hds : ∀ c ∈ ds, c.isDigit = true) :
    specBodyB (ds ++ '.' :: fs) = (decide (ds ≠ []) && (decide (fs ≠ []) && fs.all Char.isDigit)) := by
  have hdsall : ds.all Char.isDigit = true := List.all_eq_true.mpr hds
  have hdot : ('.' : Char).isDigit = false := by decide
  have hlen : ds.length < (ds ++ '.' :: fs).length := by
    simp [List.length_append]
  unfold specBodyB
  have hdig : digitsB (ds ++ '.' :: fs) = false := by
    unfold digitsB
    have : (ds ++ '.' :: fs).all Char.isDigit = false := by
      rw [Bool.eq_false_iff]
      intro hall
      have := List.all_eq_true.mp hall '.' (by simp)
      simp at this
    rw [this, Bool.and_false]
  rw [hdig, Bool.false_or]
  rw [← Bool.coe_iff_coe]
  rw [List.any_eq_true]
  constructor
  · rintro ⟨i, hi, hf⟩
    simp only [Bool.and_eq_true, decide_eq_true_eq] at hf
    obtain ⟨⟨h1, h2⟩, h3⟩ := hf
    rcases Nat.lt_trichotomy i ds.length with hlt | heq | hgt
    · exfalso
      have : (ds ++ '.' :: fs).get? i = ds.get? i := by
        rw [List.get?_eq_getElem?, List.get?_eq_getElem?]
        exact List.getElem?_append_left hlt
      rw [this] at h2
      have hmem : ('.' : Char) ∈ ds := by
        rw [List.get?_eq_getElem?] at h2
        exact List.getElem?_mem h2
      have := hds '.' hmem
      simp at this
    · subst heq
      have htake : (ds ++ '.' :: fs).take ds.length = ds := List.take_left ds _
      have hdrop : (ds ++ '.' :: fs).drop (ds.length + 1) = fs := by
        rw [List.append_cons]
        apply List.drop_left'
        simp
      rw [htake] at h1
      rw [hdrop] at h3
      unfold digitsB at h1 h3
      simp only [Bool.and_eq_true, decide_eq_true_eq] at h1 h3
      simp [h1.1, h3.1, h3.2]
    · exfalso
      unfold digitsB at h1
      simp only [Bool.and_eq_true, decide_eq_true_eq] at h1
      have hmemtake : ('.' : Char) ∈ (ds ++ '.' :: fs).take i := by
        have : (ds ++ '.' :: fs).take i = ds ++ ('.' :: fs).take (i - ds.length) := by
          rw [List.take_append_eq_append_take]
          congr 1
          exact List.take_of_length_le (by omega)
        rw [this]
        have : 0 < i - ds.length := by omega
        rcases hn : i - ds.length with _ | n
        · omega
        · simp [List.take_succ_cons]
      have := List.all_eq_true.mp h1.2 '.' hmemtake
      simp at this
  · intro h
    simp only [Bool.and_eq_true, decide_eq_true_eq] at h
    refine ⟨ds.length, List.mem_range.mpr hlen, ?_⟩
    have htake : (ds ++ '.' :: fs).take ds.length = ds := List.take_left ds _
    have hget : (ds ++ '.' :: fs).get? ds.length = some '.' := by
      rw [List.get?_eq_getElem?]
      rw [List.getElem?_append_right (Nat.le_refl _)]
      simp
    have hdrop : (ds ++ '.' :: fs).drop (ds.length + 1) = fs := by
      rw [List.append_cons]
      apply List.drop_left'
      simp
    rw [htake, hget, hdrop]
    unfold digitsB
    simp [h.1, h.2.1, h.2.2, hdsall]

theorem specBodyB_of_bad_split (ds fs : List Char) (c : Char)
    (hds : ∀ x ∈ ds, x.isDigit = true) (hc : c.isDigit = false) (hcd : c ≠ '.') :
    specBodyB (ds ++ c :: fs) = false := by
  unfold specBodyB
  rw [Bool.eq_false_iff]
  intro htrue
  rw [Bool.or_eq_true] at htrue
  rcases htrue with h | h
  · unfold digitsB at h
    simp only [Bool.and_eq_true, decide_eq_true_eq] at h
    have := List.all_eq_true.mp h.2 c (by simp)
    rw [hc] at this
    cases this
  · rw [List.any_eq_true] at h
    obtain ⟨i, _, hf⟩ := h
    simp only [Bool.and_eq_true, decide_eq_true_eq] at hf
    obtain ⟨⟨h1, h2⟩, h3⟩ := hf
    rcases Nat.lt_trichotomy i ds.length with hlt | heq | hgt
    · have : (ds ++ c :: fs).get? i = ds.get? i := by
        rw [List.get?_eq_getElem?, List.get?_eq_getElem?]
        exact List.getElem?_append_left hlt
      rw [this] at h2
      have hmem : ('.' : Char) ∈ ds := by
        rw [List.get?_eq_getElem?] at h2
        exact List.getElem?_mem h2
      have := hds '.' hmem
      simp at this
    · subst heq
      have : (ds ++ c :: fs).get? ds.length = some c := by
        rw [List.get?_eq_getElem?]
        rw [List.getElem?_append_right (Nat.le_refl _)]
        simp
      rw [this] at h2
      cases h2
      exact hcd rfl
    · unfold digitsB at h1
      simp only [Bool.and_eq_true, decide_eq_true_eq] at h1
      have hmemtake : c ∈ (ds ++ c :: fs).take i := by
        have heq : (ds ++ c :: fs).take i = ds ++ (c :: fs).take (i - ds.length) := by
          rw [List.take_append_eq_append_take]
          congr 1
          exact List.take_of_length_le (by omega)
        rw [heq]
        rcases hn : i - ds.length with _ | n
        · omega
        · simp [List.take_succ_cons]
      have := List.all_eq_true.mp h1.2 c hmemtake
      rw [hc] at this
      cases this

theorem regexCoreBody_eq_specBodyB (body : List Char) :
    regexCoreBody body = specBodyB body := by
  have hsplit := List.takeWhile_append_dropWhile (p := Char.isDigit) (l := body)
  have hds : ∀ x ∈ body.takeWhile Char.isDigit, x.isDigit = true :=
    fun x hx => List.mem_takeWhile_imp hx
  unfold regexCoreBody
  rcases hrest : body.dropWhile Char.isDigit with _ | ⟨c, fs⟩
  · rw [hrest, List.append_nil] at hsplit
    rw [specBodyB_of_digits body (fun x hx => by rw [← hsplit] at hx; exact hds x hx)]
    rw [hsplit]
    simp
  · have hc0 : c.isDigit = false := dropWhile_head_not _ _ _ _ hrest
    rw [hrest] at hsplit
    by_cases hcd : c = '.'
    · subst hcd
      conv_rhs => rw [← hsplit]
      rw [specBodyB_of_dot_split _ _ hds]
      rfl
    · conv_rhs => rw [← hsplit]
      rw [specBodyB_of_bad_split _ _ _ hds hc0 hcd]
      split
      · rename_i heq
        simp at heq
      · rename_i fs2 heq
        cases heq
        exact absurd rfl hcd
      · simp

theorem regexNumericCore_eq_specNumericB (s : String) :
    regexNumericCore s.toList = specNumericB s := by
  unfold regexNumericCore specNumericB
  rw [regexCoreBody_eq_specBodyB]
  congr 1
  rcases s.toList with _ | ⟨a, t⟩
  · rfl
  · by_cases ha : a = '-'
    · subst ha
      simp
    · rcases t with _ | ⟨b, u⟩ <;> simp [ha]

/-- Claim C5: a stripped cell chunk is excluded from the extracted table
text exactly when it is purely a signed integer or decimal number; text
with embedded digits such as "Room 42" is retained.  The hypothesis rules
out a trailing newline, which Python's `$` anchor would additionally
accept before the end of the string; `stripped_strings` inputs never end
in a newline, so the hypothesis always holds in context. -/
theorem c5_theorem :
    (∀ s : String, s.toList.getLast? ≠ some '\n' → reMatchNumeric s = specNumericB s) ∧
    reMatchNumeric "Room 42" = false ∧
    tdText ["Room 42"] = "Room 42" ∧
    tdText ["42"] = "" := by
  refine ⟨?_, by decide, by rfl, by rfl⟩
  intro s hnl
  rcases hlast : s.toList.getLast? with _ | c
  · unfold reMatchNumeric
    rw [hlast]
    show (regexNumericCore s.toList || false) = specNumericB s
    rw [Bool.or_false]
    exact regexNumericCore_eq_specNumericB s
  · have hc : ¬(c = '\n') := fun h => hnl (by rw [hlast, h])
    unfold reMatchNumeric
    rw [hlast]
    show (regexNumericCore s.toList ||
        (decide (c = '\n') && regexNumericCore s.toList.dropLast)) = specNumericB s
    have : decide (c = '\n') = false := by simp [hc]
    rw [this, Bool.false_and, Bool.or_false]
    exact regexNumericCore_eq_specNumericB s

/-- Witness for C5 at the numeric chunk "42". -/
theorem c5_witness : reMatchNumeric "42" = specNumericB "42" :=
  c5_theorem.1 "42" (by decide)

theorem digitChar_isDigit (n : Nat) (h : n < 10) : (Nat.digitChar n).isDigit = true := by
  interval_cases n <;> decide

theorem digitChar_val (n : Nat) (h : n < 10) : (Nat.digitChar n).toNat - 48 = n := by
  interval_cases n <;> decide

theorem natDecimalAux_spec : ∀ (fuel n : Nat), n < fuel →
    natDecimalAux fuel n ≠ [] ∧ (∀ c ∈ natDecimalAux fuel n, c.isDigit = true) ∧
      (natDecimalAux fuel n).foldl (fun a c => a * 10 + (c.toNat - 48)) 0 = n := by
  intro fuel
  induction fuel with
  | zero => intro n h; omega
  | succ f ih =>
    intro n h
    by_cases h10 : n < 10
    · unfold natDecimalAux
      rw [if_pos h10]
      refine ⟨by simp, ?_, ?_⟩
      · intro c hc
        rw [List.mem_singleton] at hc
        subst hc
        exact digitChar_isDigit n h10
      · simp [digitChar_val n h10]
    · have hdiv : n / 10 < f := by
        have h1 : n / 10 < n := Nat.div_lt_self (by omega) (by omega)
        omega
      obtain ⟨hne, hdig, hfold⟩ := ih (n / 10) hdiv
      unfold natDecimalAux
      rw [if_neg h10]
      refine ⟨by simp [hne], ?_, ?_⟩
      · intro c hc
        rcases List.mem_append.mp hc with hc | hc
        · exact hdig c hc
        · rw [List.mem_singleton] at hc
          subst hc
          exact digitChar_isDigit _ (Nat.mod_lt _ (by omega))
      · rw [List.foldl_append, hfold]
        simp only [List.foldl_cons, List.foldl_nil]
        rw [digitChar_val _ (Nat.mod_lt _ (by omega))]
        omega

theorem digit_not_ws (c : Char) (h : c.isDigit = true) : c.isWhitespace = false := by
  rw [Bool.eq_false_iff]
  intro hw
  simp only [Char.isWhitespace] at hw
  simp only [Bool.or_eq_true, decide_eq_true_eq] at hw
  rcases hw with ((h1 | h1) | h1) | h1 <;> (subst h1; exact absurd h (by decide))

theorem digit_ne_dash (c : Char) (h : c.isDigit = true) : c ≠ '-' ∧ c ≠ '+' := by
  constructor <;> (intro h1; subst h1; exact absurd h (by decide))

theorem dropWhile_all_false {α : Type} (p : α → Bool) (l : List α)
    (h : ∀ c ∈ l, p c = false) : l.dropWhile p = l := by
  cases l with
  | nil => rfl
  | cons a rest =>
    rw [List.dropWhile_cons_of_neg]
    rw [h a (List.mem_cons_self a rest)]
    simp

theorem pyStripWs_of_digits (l : List Char) (h : ∀ c ∈ l, c.isDigit = true) :
    pyStripWs l = l := by
  unfold pyStripWs
  have h1 : l.dropWhile Char.isWhitespace = l :=
    dropWhile_all_false _ _ (fun c hc => digit_not_ws c (h c hc))
  rw [h1]
  have h2 : l.reverse.dropWhile Char.isWhitespace = l.reverse :=
    dropWhile_all_false _ _ (fun c hc => digit_not_ws c (h c (List.mem_reverse.mp hc)))
  rw [h2, List.reverse_reverse]

theorem pyInt_pyStrNat (n : Nat) : pyInt (pyStrNat n) = some (n : Int) := by
  obtain ⟨hne, hdig, hfold⟩ := natDecimalAux_spec (n + 1) n (Nat.lt_succ_self n)
  unfold pyInt pyStrNat
  have htl : (String.mk (natDecimalAux (n + 1) n)).toList = natDecimalAux (n + 1) n := rfl
  rw [htl, pyStripWs_of_digits _ hdig]
  rcases hl : natDecimalAux (n + 1) n with _ | ⟨c0, rest⟩
  · exact absurd hl hne
  · have hc0 : c0.isDigit = true := hdig c0 (by rw [hl]; exact List.mem_cons_self _ _)
    obtain ⟨hd1, hd2⟩ := digit_ne_dash c0 hc0
    simp only [List.head?_cons]
    rw [if_neg (by simp [hd1]), if_neg (by simp [hd2])]
    rw [← hl]
    unfold parseDigits
    rw [if_pos ⟨hne, by rw [List.all_eq_true]; exact hdig⟩]
    simp [hfold]

theorem pyInt_pyStr_of_nonneg (p : Int) (h : 0 ≤ p) : pyInt (pyStr p) = some p := by
  unfold pyStr
  rw [if_neg (by omega)]
  rw [pyInt_pyStrNat]
  congr 1
  omega

theorem mem_insertAsc (x a : Int) (l : List Int) :
    a ∈ insertAsc x l ↔ a = x ∨ a ∈ l := by
  induction l with
  | nil => simp [insertAsc]
  | cons y ys ih =>
    unfold insertAsc
    by_cases h : x < y
    · rw [if_pos h]
      simp
    · rw [if_neg h]
      simp only [List.mem_cons, ih]
      tauto

theorem mem_sortInts (a : Int) (l : List Int) : a ∈ sortInts l ↔ a ∈ l := by
  induction l with
  | nil => simp [sortInts]
  | cons y ys ih =>
    unfold sortInts
    rw [mem_insertAsc, ih]
    simp

theorem pairwise_le_insertAsc (x : Int) (l : List Int)
    (h : l.Pairwise (· ≤ ·)) : (insertAsc x l).Pairwise (· ≤ ·) := by
  induction l with
  | nil => simp [insertAsc]
  | cons y ys ih =>
    rw [List.pairwise_cons] at h
    unfold insertAsc
    by_cases hxy : x < y
    · rw [if_pos hxy]
      rw [List.pairwise_cons]
      refine ⟨?_, List.pairwise_cons.mpr h⟩
      intro b hb
      rcases List.mem_cons.mp hb with hb | hb
      · subst hb; omega
      · have := h.1 b hb; omega
    · rw [if_neg hxy]
      rw [List.pairwise_cons]
      refine ⟨?_, ih h.2⟩
      intro b hb
      rcases (mem_insertAsc x b ys).mp hb with hb | hb
      · subst hb; omega
      · exact h.1 b hb

theorem pairwise_le_sortInts (l : List Int) : (sortInts l).Pairwise (· ≤ ·) := by
  induction l with
  | nil => simp [sortInts]
  | cons y ys ih => exact pairwise_le_insertAsc y _ ih

theorem nodup_insertAsc (x : Int) (l : List Int) (hx : x ∉ l) (h : l.Nodup) :
    (insertAsc x l).Nodup := by
  induction l with
  | nil => simp [insertAsc]
  | cons y ys ih =>
    rw [List.nodup_cons] at h
    unfold insertAsc
    by_cases hxy : x < y
    · rw [if_pos hxy]
      rw [List.nodup_cons]
      exact ⟨hx, List.nodup_cons.mpr h⟩
    · rw [if_neg hxy]
      rw [List.nodup_cons]
      constructor
      · intro hmem
        rcases (mem_insertAsc x y ys).mp hmem with he | he
        · exact hx (by rw [he]; exact List.mem_cons_self _ _)
        · exact h.1 he
      · exact ih (fun hm => hx (List.mem_cons_of_mem _ hm)) h.2

theorem nodup_sortInts (l : List Int) (h : l.Nodup) : (sortInts l).Nodup := by
  induction l with
  | nil => simp [sortInts]
  | cons y ys ih =>
    rw [List.nodup_cons] at h
    exact nodup_insertAsc y _ (fun hm => h.1 ((mem_sortInts y ys).mp hm)) (ih h.2)

theorem pairwise_lt_sortInts (l : List Int) (h : l.Nodup) :
    (sortInts l).Pairwise (· < ·) := by
  have h1 := pairwise_le_sortInts l
  have h2 : (sortInts l).Pairwise (· ≠ ·) := nodup_sortInts l h
  exact (h1.and h2).imp (fun hab => lt_of_le_of_ne hab.1 hab.2)

theorem foldr_max_insertAsc (x e : Int) (l : List Int) :
    (insertAsc x l).foldr max e = max x (l.foldr max e) := by
  induction l with
  | nil => simp [insertAsc]
  | cons y ys ih =>
    unfold insertAsc
    by_cases hxy : x < y
    · rw [if_pos hxy]
      simp [List.foldr_cons]
    · rw [if_neg hxy]
      simp only [List.foldr_cons, ih]
      rw [max_left_comm]

theorem foldr_max_sortInts (e : Int) (l : List Int) :
    (sortInts l).foldr max e = l.foldr max e := by
  induction l with
  | nil => rfl
  | cons y ys ih =>
    unfold sortInts
    rw [foldr_max_insertAsc, List.foldr_cons, ih]

theorem length_insertAsc (x : Int) (l : List Int) :
    (insertAsc x l).length = l.length + 1 := by
  induction l with
  | nil => rfl
  | cons y ys ih =>
    unfold insertAsc
    by_cases hxy : x < y
    · rw [if_pos hxy]; simp
    · rw [if_neg hxy]; simp [ih]

theorem length_sortInts (l : List Int) : (sortInts l).length = l.length := by
  induction l with
  | nil => rfl
  | cons y ys ih =>
    unfold sortInts
    rw [length_insertAsc, ih, List.length_cons]

theorem getLast?_eq_foldr_max (l : List Int) (hpw : l.Pairwise (· < ·))
    (hpos : ∀ x ∈ l, 0 < x) (hne : l ≠ []) :
    ∃ m, l.getLast? = some m ∧ l.foldr max 0 = m := by
  induction l with
  | nil => exact absurd rfl hne
  | cons y ys ih =>
    rcases ys with _ | ⟨z, zs⟩
    · refine ⟨y, rfl, ?_⟩
      simp only [List.foldr_cons, List.foldr_nil]
      have := hpos y (List.mem_cons_self _ _)
      omega
    · rw [List.pairwise_cons] at hpw
      obtain ⟨m, hm1, hm2⟩ := ih hpw.2 (fun x hx => hpos x (List.mem_cons_of_mem _ hx)) (by simp)
      refine ⟨m, ?_, ?_⟩
      · rw [List.getLast?_cons_cons]
        exact hm1
      · simp only [List.foldr_cons] at hm2 ⊢
        rw [hm2]
        have hym : y < m := by
          apply hpw.1
          exact List.mem_of_mem_getLast? (by rw [hm1]; exact Option.mem_some_iff.mpr rfl)
        omega

theorem renderLoop_spec (tm : List (String × String)) :
    ∀ (l : List Int) (current : Int),
    l.Pairwise (· < ·) →
    (∀ p ∈ l, current ≤ p) →
    (∀ p ∈ l, (alookup tm (pyStr p)).isSome = true) →
    (∀ q : Int, current ≤ q → q ∉ l → alookup tm (pyStr q) = none) →
    ∃ pages : List (Option String), renderLoop tm l current = Except.ok pages ∧
      ((pages.length : Int) = match l.getLast? with
        | none => 0
        | some m => m - current + 1) ∧
      ∀ i : Nat, i < pages.length →
        pages.getD i none = alookup tm (pyStr (current + (i : Int))) := by
  intro l
  induction l with
  | nil =>
    intro current _ _ _ _
    refine ⟨[], rfl, by simp, ?_⟩
    intro i hi
    simp at hi
  | cons p rest ih =>
    intro current hpw hge hlk hnone
    rw [List.pairwise_cons] at hpw
    obtain ⟨hp_rest, hpw_rest⟩ := hpw
    have hcp : current ≤ p := hge p (List.mem_cons_self _ _)
    obtain ⟨t, ht⟩ := Option.isSome_iff_exists.mp (hlk p (List.mem_cons_self _ _))
    have ih2 := ih (p + 1) hpw_rest
      (fun x hx => by have := hp_rest x hx; omega)
      (fun x hx => hlk x (List.mem_cons_of_mem _ hx))
      (fun q hq hqn => hnone q (by omega) (by
        intro hmem
        rcases List.mem_cons.mp hmem with he | he
        · omega
        · exact hqn he))
    obtain ⟨tail, htail, hlen, hidx⟩ := ih2
    refine ⟨List.replicate (p - current).toNat none ++ some t :: tail, ?_, ?_, ?_⟩
    · unfold renderLoop
      rw [ht, max_eq_right hcp, htail]
    · simp only [List.length_append, List.length_replicate, List.length_cons]
      rcases rest with _ | ⟨r, rs⟩
      · simp only [List.getLast?_nil] at hlen
        rw [List.getLast?_singleton]
        push_cast
        omega
      · rw [List.getLast?_cons_cons]
        rcases hgl : (r :: rs).getLast? with _ | m
        · rw [List.getLast?_eq_none_iff] at hgl
          cases hgl
        · rw [hgl] at hlen
          dsimp only at hlen ⊢
          have hpm : p < m :=
            hp_rest m (List.mem_of_mem_getLast? (by rw [hgl]; exact Option.mem_some_iff.mpr rfl))
          push_cast
          omega
    · intro i hi
      simp only [List.length_append, List.length_replicate, List.length_cons] at hi
      by_cases h1 : i < (p - current).toNat
      · rw [List.getD_eq_getElem?_getD]
        rw [List.getElem?_append_left (by simpa using h1)]
        rw [List.getElem?_replicate_of_lt h1]
        have hlt : current + (i : Int) < p := by omega
        rw [hnone (current + (i : Int)) (by omega) ?hn]
        · rfl
        case hn =>
          intro hmem
          rcases List.mem_cons.mp hmem with he | he
          · omega
          · have := hp_rest _ he; omega
      · by_cases h2 : i = (p - current).toNat
        · subst h2
          rw [List.getD_eq_getElem?_getD]
          rw [List.getElem?_append_right (by simp)]
          simp only [List.length_replicate, Nat.sub_self, List.getElem?_cons_zero]
          have hpi : current + ((p - current).toNat : Int) = p := by omega
          rw [hpi, ht]
          rfl
        · have h3 : (p - current).toNat < i := by omega
          rw [List.getD_eq_getElem?_getD]
          rw [List.getElem?_append_right (by simp; omega)]
          simp only [List.length_replicate]
          rcases hj : i - (p - current).toNat with _ | j
          · omega
          · rw [List.getElem?_cons_succ]
            have hjlen : j < tail.length := by omega
            have := hidx j hjlen
            rw [List.getD_eq_getElem?_getD] at this
            have harith : p + 1 + (j : Int) = current + (i : Int) := by omega
            rw [← harith]
            exact this

theorem intsOfKeys_ok (tm : List (String × String))
    (h : ∀ kv ∈ tm, (pyInt kv.1).isSome = true) :
    intsOfKeys tm = Except.ok (tm.map (fun kv => (pyInt kv.1).getD 0)) := by
  induction tm with
  | nil => rfl
  | cons kv rest ih =>
    obtain ⟨n, hn⟩ := Option.isSome_iff_exists.mp (h kv (List.mem_cons_self _ _))
    unfold intsOfKeys
    rw [hn, ih (fun x hx => h x (List.mem_cons_of_mem _ hx))]
    simp [hn]

/-- The integer page numbers of a page-text map's keys (given that they all
parse). -/
def intKeysOf (tm : List (String × String)) : List Int :=
  tm.map (fun kv => (pyInt kv.1).getD 0)

/-- `max(page_numbers)` of a page-text map. -/
def maxPageOf (tm : List (String × String)) : Int :=
  (intKeysOf tm).foldr max 0

/-- Claim C6: for a non-empty page-text map whose keys are canonical
decimal renderings of distinct positive integers, the synthesizer produces
exactly `max(page_numbers)` physical pages, page `i + 1` carrying the
map's text for key `str(i + 1)` when present and blank (`none`) when
absent; for the empty map the whole PDF phase is skipped and no document
is produced. -/
theorem c6_theorem :
    (∀ tm : List (String × String), tm ≠ [] →
      (∀ kv ∈ tm, ∃ n : Int, 0 < n ∧ pyInt kv.1 = some n ∧ pyStr n = kv.1) →
      (tm.map Prod.fst).Nodup →
      ∃ pages : List (Option String), renderPdfPages tm = Except.ok pages ∧
        (pages.length : Int) = maxPageOf tm ∧
        ∀ i : Nat, i < pages.length →
          pages.getD i none = alookup tm (pyStr ((i : Int) + 1))) ∧
    (∀ (split : List (Option String) → Except String (List Node)) (tmp : String),
      pdfPhase split tmp [] = ([], Except.ok [])) := by
  refine ⟨?_, fun split tmp => rfl⟩
  intro tm hne hcanon hnodup
  have hsome : ∀ kv ∈ tm, (pyInt kv.1).isSome = true := by
    intro kv hkv
    obtain ⟨n, _, hn, _⟩ := hcanon kv hkv
    rw [hn]
    rfl
  have hmem_ints : ∀ p : Int, p ∈ intKeysOf tm →
      ∃ kv, kv ∈ tm ∧ 0 < p ∧ pyInt kv.1 = some p ∧ pyStr p = kv.1 := by
    intro p hp
    obtain ⟨kv, hkv, hval⟩ := List.mem_map.mp hp
    obtain ⟨n, hn0, hn, hs⟩ := hcanon kv hkv
    rw [hn] at hval
    simp only [Option.getD_some] at hval
    subst hval
    exact ⟨kv, hkv, hn0, hn, hs⟩
  have hnodints : (intKeysOf tm).Nodup := by
    unfold intKeysOf
    have hcomp : tm.map (fun kv => (pyInt kv.1).getD 0)
        = (tm.map Prod.fst).map (fun k => (pyInt k).getD 0) := by
      rw [List.map_map]
      rfl
    rw [hcomp]
    apply List.Nodup.map_on ?_ hnodup
    intro k1 hk1 k2 hk2 heq
    obtain ⟨kv1, hkv1, hfst1⟩ := List.mem_map.mp hk1
    obtain ⟨kv2, hkv2, hfst2⟩ := List.mem_map.mp hk2
    obtain ⟨n1, _, hn1, hs1⟩ := hcanon kv1 hkv1
    obtain ⟨n2, _, hn2, hs2⟩ := hcanon kv2 hkv2
    subst hfst1
    subst hfst2
    rw [hn1, hn2] at heq
    simp only [Option.getD_some] at heq
    subst heq
    rw [← hs1, ← hs2]
  have hpw := pairwise_lt_sortInts (intKeysOf tm) hnodints
  have hge : ∀ p ∈ sortInts (intKeysOf tm), (1 : Int) ≤ p := by
    intro p hp
    obtain ⟨kv, _, h0, _, _⟩ := hmem_ints p ((mem_sortInts p _).mp hp)
    omega
  have hlk : ∀ p ∈ sortInts (intKeysOf tm), (alookup tm (pyStr p)).isSome = true := by
    intro p hp
    obtain ⟨kv, hkv, _, _, hs⟩ := hmem_ints p ((mem_sortInts p _).mp hp)
    rw [hs]
    exact alookup_isSome_of_mem hkv
  have hnone : ∀ q : Int, (1 : Int) ≤ q → q ∉ sortInts (intKeysOf tm) →
      alookup tm (pyStr q) = none := by
    intro q hq hqn
    rcases hl : alookup tm (pyStr q) with _ | v
    · rfl
    · exfalso
      have hmem := alookup_some_mem hl
      obtain ⟨n, hn0, hnint, hnstr⟩ := hcanon _ hmem
      simp only at hnint
      rw [pyInt_pyStr_of_nonneg q (by omega)] at hnint
      cases hnint
      apply hqn
      rw [mem_sortInts]
      unfold intKeysOf
      apply List.mem_map.mpr
      refine ⟨(pyStr q, v), hmem, ?_⟩
      simp only
      rw [pyInt_pyStr_of_nonneg q (by omega)]
      rfl
  obtain ⟨pages, hrl, hlen, hidx⟩ :=
    renderLoop_spec tm (sortInts (intKeysOf tm)) 1 hpw hge hlk hnone
  have hints_ne : intKeysOf tm ≠ [] := by
    unfold intKeysOf
    intro h
    exact hne (List.map_eq_nil_iff.mp h)
  have hsorted_ne : sortInts (intKeysOf tm) ≠ [] := by
    intro h
    have := length_sortInts (intKeysOf tm)
    rw [h] at this
    simp at this
    exact hints_ne ((List.length_eq_zero).mp this.symm)
  have hpos : ∀ x ∈ sortInts (intKeysOf tm), 0 < x := by
    intro x hx
    have := hge x hx
    omega
  obtain ⟨m, hm1, hm2⟩ := getLast?_eq_foldr_max _ hpw hpos hsorted_ne
  refine ⟨pages, ?_, ?_, ?_⟩
  · unfold renderPdfPages
    rw [intsOfKeys_ok tm hsome]
    exact hrl
  · rw [hm1] at hlen
    dsimp only at hlen
    unfold maxPageOf
    rw [← foldr_max_sortInts, hm2]
    omega
  · intro i hi
    have := hidx i hi
    have harith : (1 : Int) + (i : Int) = (i : Int) + 1 := by omega
    rw [harith] at this
    exact this

/-- Witness for C6 at the one-page map `{"2": "b"}`: two physical pages,
page 1 blank, page 2 carrying the text. -/
theorem c6_witness :
    ∃ pages : List (Option String), renderPdfPages [("2", "b")] = Except.ok pages ∧
      (pages.length : Int) = maxPageOf [("2", "b")] ∧
      ∀ i : Nat, i < pages.length →
        pages.getD i none = alookup [("2", "b")] (pyStr ((i : Int) + 1)) :=
  c6_theorem.1 [("2", "b")] (by decide)
    (fun kv hkv => by
      rw [List.mem_singleton] at hkv
      subst hkv
      exact ⟨2, by decide, by decide, by decide⟩)
    (by decide)

theorem renderLoop_ok_lookup (tm : List (String × String)) :
    ∀ (l : List Int) (current : Int) (pages : List (Option String)),
    renderLoop tm l current = Except.ok pages →
    ∀ p ∈ l, (alookup tm (pyStr p)).isSome = true := by
  intro l
  induction l with
  | nil =>
    intro current pages _ p hp
    simp at hp
  | cons p0 rest ih =>
    intro current pages h p hp
    unfold renderLoop at h
    rcases halk : alookup tm (pyStr p0) with _ | t
    · rw [halk] at h
      cases h
    · rw [halk] at h
      rcases hrl : renderLoop tm rest (max current p0 + 1) with e | tail
      · rw [hrl] at h
        cases h
      · rcases List.mem_cons.mp hp with he | he
        · subst he
          rw [halk]
          rfl
        · exact ih (max current p0 + 1) tail hrl p he

theorem intsOfKeys_ok_inv (tm : List (String × String)) :
    ∀ ints : List Int, intsOfKeys tm = Except.ok ints →
    ∀ kv ∈ tm, ∃ n : Int, pyInt kv.1 = some n ∧ n ∈ ints := by
  induction tm with
  | nil =>
    intro ints _ kv hkv
    simp at hkv
  | cons kv0 rest ih =>
    intro ints h kv hkv
    unfold intsOfKeys at h
    rcases hp : pyInt kv0.1 with _ | n0
    · rw [hp] at h
      cases h
    · rw [hp] at h
      rcases hr : intsOfKeys rest with e | ns
      · rw [hr] at h
        cases h
      · rw [hr] at h
        cases h
        rcases List.mem_cons.mp hkv with he | he
        · subst he
          exact ⟨n0, hp, List.mem_cons_self _ _⟩
        · obtain ⟨n, hn1, hn2⟩ := ih ns hr kv he
          exact ⟨n, hn1, List.mem_cons_of_mem _ hn2⟩

/-- Claim C10 counterexample: the map `{"01": "a", "1": "b"}` violates the
claimed precondition (the label `"01"` is not the canonical rendering
`str(int("01")) = "1"`), yet synthesis succeeds — producing two pages both
carrying the text stored under `"1"`. -/
theorem c10_counterexample :
    renderPdfPages [("01", "a"), ("1", "b")] = Except.ok [some "b", some "b"] ∧
    pyInt "01" = some 1 ∧ pyStr 1 = "1" ∧ ("1" : String) ≠ "01" :=
  ⟨rfl, rfl, rfl, by decide⟩

/-- Claim C10 (amended): the rendering loop fetches each page's text via
`all_text_nodes_map[str(int(label))]`, so whenever synthesis succeeds,
every label's integer value has its canonical decimal rendering present
among the map's keys (the non-canonical label itself may additionally be
present); in particular a map whose only label is `"01"` aborts the
archive's synthesis with a `KeyError`. -/
theorem c10_theorem :
    (∀ (tm : List (String × String)) (pages : List (Option String)),
      renderPdfPages tm = Except.ok pages →
      ∀ kv ∈ tm, ∃ n : Int, pyInt kv.1 = some n ∧
        (alookup tm (pyStr n)).isSome = true) ∧
    renderPdfPages [("01", "x")] = Except.error "KeyError" := by
  refine ⟨?_, rfl⟩
  intro tm pages h kv hkv
  unfold renderPdfPages at h
  rcases hik : intsOfKeys tm with e | ints
  · rw [hik] at h
    cases h
  · rw [hik] at h
    obtain ⟨n, hn1, hn2⟩ := intsOfKeys_ok_inv tm ints hik kv hkv
    refine ⟨n, hn1, ?_⟩
    exact renderLoop_ok_lookup tm (sortInts ints) 1 pages h n ((mem_sortInts n ints).mpr hn2)

/-- Witness for C10 at the canonical one-page map `{"1": "a"}`. -/
theorem c10_witness :
    ∃ n : Int, pyInt "1" = some n ∧ (alookup [("1", "a")] (pyStr n)).isSome = true :=
  c10_theorem.1 [("1", "a")] [some "a"] rfl ("1", "a") (List.mem_singleton.mpr rfl)
